import Mathlib

/-!
# Verification of the Tale simulation core against its specification

The repository ships the language utilities `tale/lang.py` in full; the
world-graph core (`tale/base.py`, `tale/player.py`, the driver scheduler) is
not present under `src/`, only its unit tests are.  Functions of `lang.py`
are embedded directly from the source; the world-graph operations are
modelled from the specification, corrected where the unit tests of the
repository pin a different behaviour (each such place is documented on the
definition).

Strings are embedded as Lean `String`s; where Python indexes or compares
character sequences, the embedding works on the underlying `List Char`
(Python compares strings by code points, exactly the order on `Char`).
-/

namespace Tale

/-! ## Character-list helpers (Python str primitives) -/

/-- Python `s.startswith(p)` on code-point sequences: `isPfx p s` is true when
`p` is an initial segment of `s`. -/
def isPfx : List Char → List Char → Bool
  | [], _ => true
  | _ :: _, [] => false
  | a :: as, b :: bs => a == b && isPfx as bs

/-- Python `pat in s` (substring containment) on code-point sequences. -/
def hasSub : List Char → List Char → Bool
  | cs, pat =>
    isPfx pat cs ||
      match cs with
      | [] => false
      | _ :: t => hasSub t pat

/-- Python `pat in s` for strings: substring containment. -/
def strContains (s pat : String) : Bool :=
  hasSub s.data pat.data

/-- Python `str.strip()`: removes whitespace from both ends, the interior is
kept verbatim. -/
def pyStrip (s : String) : String :=
  String.mk (((s.data.dropWhile Char.isWhitespace).reverse.dropWhile Char.isWhitespace).reverse)

/-- Python `sep.join(parts)`. -/
def interc (sep : String) : List String → String
  | [] => ""
  | [s] => s
  | s :: rest => s ++ sep ++ interc sep rest

/-- The apostrophe character, written by code point. -/
def apos : Char := Char.ofNat 39

/-- The word "can of t" with an apostrophe, as it appears in the refusal
messages of the code base. -/
def cantWord : String := String.mk ['c', 'a', 'n', apos, 't']

/-! ## C6 — Door state machine

Modelled from the spec: `tale/base.py` is absent from `src/`; `Door` (§3,
§4.3) carries `opened`/`locked` booleans; a plain `Door` does not support
locking, which `lockable` records.  Transition checks and refusal reasons
follow §4.3 and the messages asserted by `tests/test_mudobjects.py`
(`TestDoorsExits.test_actions`).  A refused transition returns
`Except.error reason`, standing for `ActionRefused(reason)`. -/

structure Door where
  opened : Bool
  locked : Bool
  lockable : Bool
deriving DecidableEq

/-- Modelled from the spec: `Door.open` — legal only from closed and
unlocked. -/
def Door.openDoor (d : Door) : Except String Door :=
  if d.opened then .error "it is already open"
  else if d.locked then .error ("it is locked, you " ++ cantWord ++ " open it")
  else .ok { d with opened := true }

/-- Modelled from the spec: `Door.close` — legal only from opened; keeps the
lock state. -/
def Door.closeDoor (d : Door) : Except String Door :=
  if !d.opened then .error "it is already closed"
  else .ok { d with opened := false }

/-- Modelled from the spec: `Door.lock` — refused when already locked, and a
door that does not support locking cannot be locked. -/
def Door.lockDoor (d : Door) : Except String Door :=
  if d.locked then .error "it is already locked"
  else if !d.lockable then .error ("this door " ++ cantWord ++ " be locked")
  else .ok { d with locked := true }

/-- Modelled from the spec: `Door.unlock` — refused when not locked, and a
door that does not support locking cannot be unlocked. -/
def Door.unlockDoor (d : Door) : Except String Door :=
  if !d.locked then .error "it is not locked"
  else if !d.lockable then .error ("this door " ++ cantWord ++ " be unlocked")
  else .ok { d with locked := false }

/-! ## C8 — Deferred scheduler

Modelled from the spec: the driver module is absent from `src/`; §4.5 — the
world authority owns a queue of deferred entries `(due time, target entity,
method name)`; destroying an entity removes every entry whose target it is
(an O(n) scan over the queue). -/

structure Deferred where
  due : Nat
  target : Nat
  methodName : String
deriving DecidableEq

structure SchedWorld where
  deferreds : List Deferred
  destroyed : List Nat
deriving DecidableEq

/-- Modelled from the spec: `driver.defer(when, target, method)` appends an
entry to the queue. -/
def deferOp (w : SchedWorld) (whenDue : Nat) (target : Nat) (methodName : String) : SchedWorld :=
  { w with deferreds := w.deferreds ++ [⟨whenDue, target, methodName⟩] }

/-- Modelled from the spec: destroying an entity marks it dead and removes
every deferred entry referencing it from the queue. -/
def destroyEntity (w : SchedWorld) (e : Nat) : SchedWorld :=
  { deferreds := w.deferreds.filter (fun d => d.target != e),
    destroyed := e :: w.destroyed }

/-- Modelled from the spec: one scheduling pass at time `now` pops (consumes)
every entry whose due time has elapsed; the popped entries are returned
beside the new state. -/
def runDue (w : SchedWorld) (now : Nat) : SchedWorld × List Deferred :=
  ({ w with deferreds := w.deferreds.filter (fun d => !(d.due ≤ now : Bool)) },
   w.deferreds.filter (fun d => (d.due ≤ now : Bool)))

/-- The reachable scheduler states: entries are only enqueued for entities
that are still alive. -/
inductive SchedReach : SchedWorld → Prop
  | init : SchedReach ⟨[], []⟩
  | deferStep {w : SchedWorld} (whenDue target : Nat) (methodName : String)
      (h : SchedReach w) (ht : target ∉ w.destroyed) :
      SchedReach (deferOp w whenDue target methodName)
  | destroyStep {w : SchedWorld} (e : Nat) (h : SchedReach w) :
      SchedReach (destroyEntity w e)
  | tick {w : SchedWorld} (now : Nat) (h : SchedReach w) :
      SchedReach (runDue w now).1

/-! ## C7 — Destroying a Location

Modelled from the spec: `tale/base.py` is absent from `src/`; §9/§4.4 and
`tests/test_mudobjects.py` (`TestDestroy.test_destroy_loc`) — destroying a
Location empties its `exits`, `items`, `livings` and `wiretaps` sets and
relocates every contained Living to the singleton fallback location Limbo;
the `installed_wiretaps` bookkeeping of players is left untouched. -/

structure DLoc where
  exits : List (String × Nat)
  items : List Nat
  livings : List Nat
  wiretaps : List Nat
deriving DecidableEq

def emptyDLoc : DLoc := ⟨[], [], [], []⟩

/-- The id of the singleton fallback location Limbo. -/
def limboId : Nat := 0

structure DestroyWorld where
  locs : Nat → DLoc
  livingLocation : Nat → Option Nat
  installedWiretaps : Nat → List Nat

/-- Modelled from the spec: `Location.destroy(ctx)` — relocate all contained
livings to Limbo, then clear the exits, items, livings and wiretaps sets.
Wiretap records in the installing players are not touched. -/
def destroyLocation (w : DestroyWorld) (i : Nat) : DestroyWorld :=
  let contained := (w.locs i).livings
  { locs := fun j =>
      if j = i then emptyDLoc
      else if j = limboId then
        { w.locs j with livings := (w.locs j).livings ++ contained }
      else w.locs j,
    livingLocation := fun l =>
      if l ∈ contained then some limboId else w.livingLocation l,
    installedWiretaps := w.installedWiretaps }

/-- A concrete example world: location 1 has an exit, an item, livings 5 and
6 and a wiretap installed by player 5. -/
def destroyWorldEx : DestroyWorld :=
  { locs := fun j => if j = 1 then ⟨[("north", 2)], [4], [5, 6], [9]⟩ else emptyDLoc,
    livingLocation := fun l => if l = 5 ∨ l = 6 then some 1 else none,
    installedWiretaps := fun p => if p = 5 then [9] else [] }

/-! ## C3 — remove of a non-member

Modelled from the spec and the repository tests; `tale/base.py` is absent
from `src/`.  `tests/test_mudobjects.py` pins the behaviour:

* `TestLocations.test_enter_leave` removes the same NPC from a Location a
  second time, and then removes a value that never was a member, both
  without any exception: `Location.remove` silently ignores non-members.
* `TestContainer.test_container_contains` requires `KeyError` when removing
  a non-member from a `Container` (the Python `set.remove` of the inventory).
* `TestLiving.test_allowance` requires `ActionRefused` when an actor other
  than the living itself (or a wizard) tries to remove from a living. -/

inductive MudErr where
  | actionRefused (reason : String)
  | keyError
deriving DecidableEq

structure Loc3 where
  items : List Nat
  livings : List Nat
deriving DecidableEq

/-- Modelled from the spec / tests: `Location.remove(entity, actor)` — the
entity is removed from the livings or items set and its back-reference is
cleared; an entity that is not a member is silently ignored. -/
def locationRemove (loc : Loc3) (e : Nat) : Except MudErr Loc3 :=
  if e ∈ loc.livings then .ok { loc with livings := loc.livings.erase e }
  else if e ∈ loc.items then .ok { loc with items := loc.items.erase e }
  else .ok loc

/-- Modelled from the spec / tests: `Container.remove(item, actor)` — the
inventory is a Python set, `set.remove` raises `KeyError` when the item is
not a member. -/
def containerRemove (inv : List Nat) (e : Nat) : Except MudErr (List Nat) :=
  if e ∈ inv then .ok (inv.erase e) else .error .keyError

/-- Modelled from the spec / tests: `Living.remove(item, actor)` — refuses
actors other than the living itself or a wizard with `ActionRefused`, then
behaves like `Container.remove` on the personal inventory. -/
def livingRemove (selfId : Nat) (wizards : List Nat) (inv : List Nat)
    (actor : Option Nat) (e : Nat) : Except MudErr (List Nat) :=
  match actor with
  | some a =>
    if a = selfId ∨ a ∈ wizards then containerRemove inv e
    else .error (.actionRefused ("you " ++ cantWord ++ " take things from them"))
  | none => .error (.actionRefused ("you " ++ cantWord ++ " take things from them"))

/-! ## C5 — TextBuffer

Modelled from the spec: `tale/player.py` is absent from `src/`; §4.6 as
pinned by `tests/test_player.py` (`TestTextbuffer`, `TestPlayer.test_tell`):
a `print` call appends a line to the currently open paragraph when the
format flag agrees, closing the open paragraph and starting a new one when
it does not; `format=True` lines are stripped, `format=False` lines are kept
verbatim; an empty `format=True` line with `end=False` is dropped; `end=True`
closes the paragraph.  (The tests show that consecutive `format=False`
prints accumulate into one unformatted paragraph: `test_empty_lines` stores
two empty unformatted prints as a single `("\n\n", False)` paragraph.) -/

structure Paragraph where
  format : Bool
  lines : List String
deriving DecidableEq

/-- The text of a paragraph: the lines joined by newlines, plus a final
newline. -/
def Paragraph.text (p : Paragraph) : String :=
  interc "\n" p.lines ++ "\n"

structure TextBuffer where
  closedParas : List Paragraph
  current : Option Paragraph
deriving DecidableEq

def TextBuffer.initBuf : TextBuffer := ⟨[], none⟩

/-- Modelled from the spec / tests: `TextBuffer.print(line, end, format)`. -/
def TextBuffer.print (buf : TextBuffer) (line : String) (endP : Bool) (format : Bool) :
    TextBuffer :=
  if line = "" ∧ format = true ∧ endP = false then buf
  else
    let closed : List Paragraph :=
      match buf.current with
      | none => buf.closedParas
      | some p => if p.format ≠ format then buf.closedParas ++ [p] else buf.closedParas
    let curLines : List String :=
      match buf.current with
      | none => []
      | some p => if p.format ≠ format then [] else p.lines
    let l := if format then pyStrip line else line
    let cur : Paragraph := ⟨format, curLines ++ [l]⟩
    if endP then ⟨closed ++ [cur], none⟩ else ⟨closed, some cur⟩

/-- `TextBuffer.get_paragraphs()`: the drained output, each paragraph as its
text paired with its format flag (the open paragraph is included). -/
def TextBuffer.getParagraphs (buf : TextBuffer) : List (String × Bool) :=
  (buf.closedParas ++ buf.current.toList).map (fun p => (p.text, p.format))

/-! ## C1 — Containment invariant

Modelled from the spec: `tale/base.py` is absent from `src/`; §3/§4.1 — the
containment graph keeps, for every Container/Location (identified by a
natural number), its membership set, and for every Item its `contained_in`
back-reference.  `insert` atomically updates both the old and the new
containment pointer and membership set; `remove` clears both; `move` is the
composed remove-then-insert, one logical step. -/

structure ContainState where
  items : List Nat
  containers : List Nat
  memberOf : Nat → Finset Nat
  containedIn : Nat → Option Nat

def csInit : ContainState :=
  ⟨[], [], fun _ => ∅, fun _ => none⟩

/-- Modelled from the spec: registering a fresh Item (created standalone,
`contained_in` is `None`). -/
def csNewItem (s : ContainState) (i : Nat) : ContainState :=
  { s with items := i :: s.items }

/-- Modelled from the spec: registering a fresh Container/Location (its
membership set is empty). -/
def csNewContainer (s : ContainState) (c : Nat) : ContainState :=
  { s with containers := c :: s.containers }

/-- Modelled from the spec: `insert(entity, actor)` — atomically removes the
entity from the membership set of its old owner (when it has one), adds it
to the new owner's set and repoints `contained_in`, in one step. -/
def csInsert (s : ContainState) (i c : Nat) : ContainState :=
  { s with
    memberOf := fun x =>
      let m :=
        match s.containedIn i with
        | none => s.memberOf x
        | some o => if x = o then (s.memberOf x).erase i else s.memberOf x
      if x = c then insert i m else m,
    containedIn := fun x => if x = i then some c else s.containedIn x }

/-- Modelled from the spec: the state change of a successful
`remove(entity, actor)` — the entity leaves its owner's membership set and
`contained_in` becomes `None`. -/
def csRemove (s : ContainState) (i : Nat) : ContainState :=
  match s.containedIn i with
  | none => s
  | some o =>
    { s with
      memberOf := fun x => if x = o then (s.memberOf x).erase i else s.memberOf x,
      containedIn := fun x => if x = i then none else s.containedIn x }

/-- Modelled from the spec: `move(entity, target, actor)` — the composed
remove-then-insert, a single logical step. -/
def csMove (s : ContainState) (i c : Nat) : ContainState :=
  csInsert (csRemove s i) i c

/-- The concrete state: a fresh container 10, a fresh item 5, the item
inserted into the container. -/
def csEx : ContainState := csInsert (csNewItem (csNewContainer csInit 10) 5) 5 10

/-- The reachable containment states: items and containers are registered
fresh, inserts and moves target registered containers. -/
inductive CReach : ContainState → Prop
  | init : CReach csInit
  | newItem {s : ContainState} (i : Nat) (h : CReach s)
      (hfree : s.containedIn i = none) (hout : ∀ c, i ∉ s.memberOf c) :
      CReach (csNewItem s i)
  | newContainer {s : ContainState} (c : Nat) (h : CReach s)
      (hempty : s.memberOf c = ∅) :
      CReach (csNewContainer s c)
  | insertStep {s : ContainState} (i c : Nat) (h : CReach s)
      (hi : i ∈ s.items) (hc : c ∈ s.containers) :
      CReach (csInsert s i c)
  | removeStep {s : ContainState} (i : Nat) (h : CReach s) :
      CReach (csRemove s i)
  | moveStep {s : ContainState} (i c : Nat) (h : CReach s)
      (hi : i ∈ s.items) (hc : c ∈ s.containers) :
      CReach (csMove s i c)

/-- The containment invariant of §8: an Item's `contained_in` is `None`
exactly when it is in no membership set; otherwise it is a member of exactly
one set, the one of its owner. -/
def ContainInv (s : ContainState) : Prop :=
  ∀ i ∈ s.items,
    (s.containedIn i = none → ∀ c ∈ s.containers, i ∉ s.memberOf c) ∧
    (∀ c, s.containedIn i = some c →
      c ∈ s.containers ∧ i ∈ s.memberOf c ∧
        ∀ c2 ∈ s.containers, i ∈ s.memberOf c2 → c2 = c)

/-! ## C4 — handle_verb broadcast

Modelled from the spec: `tale/base.py` is absent from `src/`; §4.2 — a
Location broadcasts `handle_verb` to every item directly present, every
living directly present and every item in each present living's personal
inventory, without short-circuiting; each entity reports success exactly
when the verb is a key of its own `verbs` mapping (setting its internal
handled flag, as instrumented by `tests/test_player.py`,
`TestPlayer.test_handle_and_notify_action`); the aggregate result is the
logical OR.  The `invoked` counter instruments how often an entity's
`handle_verb` ran. -/

structure VEnt where
  ident : Nat
  verbs : List String
  handled : Bool
  invoked : Nat
deriving DecidableEq

/-- One entity's `handle_verb`: it is invoked (counter), and reports success
exactly when the verb is registered with it. -/
def VEnt.handleVerb (verb : String) (e : VEnt) : Bool × VEnt :=
  if verb ∈ e.verbs then (true, { e with handled := true, invoked := e.invoked + 1 })
  else (false, { e with invoked := e.invoked + 1 })

/-- The effect of one `handle_verb` invocation on an entity. -/
def touch (verb : String) (e : VEnt) : VEnt :=
  { e with handled := e.handled || decide (verb ∈ e.verbs), invoked := e.invoked + 1 }

structure VLiving4 where
  entity : VEnt
  inventory : List VEnt
deriving DecidableEq

structure VLoc4 where
  items : List VEnt
  livings : List VLiving4
deriving DecidableEq

/-- Broadcast over a list of entities: every entity is invoked, the results
are OR-ed (no short-circuit). -/
def handleAll (verb : String) : List VEnt → Bool × List VEnt
  | [] => (false, [])
  | e :: rest =>
    let r := VEnt.handleVerb verb e
    let rs := handleAll verb rest
    (r.1 || rs.1, r.2 :: rs.2)

/-- Broadcast over the livings: each living itself, then the items of its
personal inventory. -/
def handleLivings (verb : String) : List VLiving4 → Bool × List VLiving4
  | [] => (false, [])
  | l :: rest =>
    let r1 := VEnt.handleVerb verb l.entity
    let r2 := handleAll verb l.inventory
    let rs := handleLivings verb rest
    ((r1.1 || r2.1) || rs.1, ⟨r1.2, r2.2⟩ :: rs.2)

/-- Modelled from the spec: `Location.handle_verb(parsed, actor)` — the
two-level broadcast: items, livings, livings' inventories. -/
def VLoc4.handleVerb (loc : VLoc4) (verb : String) : Bool × VLoc4 :=
  let ri := handleAll verb loc.items
  let rl := handleLivings verb loc.livings
  (ri.1 || rl.1, ⟨ri.2, rl.2⟩)

/-- The entities reached by the broadcast, in traversal order. -/
def reachEntities (loc : VLoc4) : List VEnt :=
  loc.items ++ loc.livings.flatMap (fun l => l.entity :: l.inventory)

/-- A concrete room mirroring `test_handle_and_notify_action`: a chair with
verb "frobnitz", a player with verb "xywobble" carrying a chair with verb
"kerwaffle". -/
def vLocEx : VLoc4 :=
  { items := [⟨1, ["frobnitz"], false, 0⟩],
    livings := [⟨⟨2, ["xywobble"], false, 0⟩, [⟨3, ["kerwaffle"], false, 0⟩]⟩] }

/-! ## C2 — aggregate verbs of a Location

Modelled from the spec and the repository tests; `tale/base.py` is absent
from `src/`.  §3 describes `Location.verbs` as an aggregate sequence
maintained by insert/remove/move; `tests/test_mudobjects.py`
(`TestLocations.test_custom_verbs`) pins the mechanism: inserting an entity
appends its verbs to the location's aggregate list; inserting a living also
appends the verbs of the items of its personal inventory; inserting an item
into a present living's inventory appends that item's verbs to the
location's aggregate; removal removes one occurrence of each such verb;
move is remove-then-insert. -/

structure VItem2 where
  verbs : List String
deriving DecidableEq

structure VLiving2 where
  verbs : List String
  inventory : List VItem2
deriving DecidableEq

structure VRoom where
  items : List VItem2
  livings : List VLiving2
  verbs : List String
deriving DecidableEq

def emptyVRoom : VRoom := ⟨[], [], []⟩

/-- All verbs a living contributes to the location it stands in: its own
and those of the items of its personal inventory. -/
def livingAllVerbs (l : VLiving2) : List String :=
  l.verbs ++ l.inventory.flatMap VItem2.verbs

structure W2 where
  locs : Nat → VRoom

def w2Init : W2 := ⟨fun _ => emptyVRoom⟩

def updateLoc (w : W2) (n : Nat) (f : VRoom → VRoom) : W2 :=
  ⟨fun m => if m = n then f (w.locs m) else w.locs m⟩

/-- Modelled from the tests: `Location.insert(item, actor)` — the item joins
the items set and its verbs are appended to the aggregate. -/
def w2InsertItem (w : W2) (n : Nat) (it : VItem2) : W2 :=
  updateLoc w n (fun r => { r with items := r.items ++ [it], verbs := r.verbs ++ it.verbs })

/-- Modelled from the tests: `Location.remove(item, actor)`; the caller
supplies the decomposition `items = pre ++ it :: post` (fixed by the
reachability relation); one occurrence of each of the item's verbs leaves
the aggregate (`List.diff` removes first occurrences). -/
def w2RemoveItem (w : W2) (n : Nat) (pre post : List VItem2) (it : VItem2) : W2 :=
  updateLoc w n (fun r => { r with items := pre ++ post, verbs := r.verbs.diff it.verbs })

/-- Modelled from the tests: `Location.insert(living, actor)` — the living
joins the livings set; its verbs and those of its inventory items are
appended to the aggregate. -/
def w2InsertLiving (w : W2) (n : Nat) (l : VLiving2) : W2 :=
  updateLoc w n (fun r =>
    { r with livings := r.livings ++ [l], verbs := r.verbs ++ livingAllVerbs l })

/-- Modelled from the tests: `Location.remove(living, actor)` with the
decomposition `livings = pre ++ l :: post`. -/
def w2RemoveLiving (w : W2) (n : Nat) (pre post : List VLiving2) (l : VLiving2) : W2 :=
  updateLoc w n (fun r =>
    { r with livings := pre ++ post, verbs := r.verbs.diff (livingAllVerbs l) })

/-- Modelled from the tests: `Living.insert(item, actor)` for a living that
stands in location `n` at position `pre ++ l :: post` — the item joins the
personal inventory and its verbs are appended to the location's aggregate. -/
def w2LivingInsertItem (w : W2) (n : Nat) (pre post : List VLiving2) (l : VLiving2)
    (it : VItem2) : W2 :=
  updateLoc w n (fun r =>
    { r with
      livings := pre ++ ({ l with inventory := l.inventory ++ [it] } : VLiving2) :: post,
      verbs := r.verbs ++ it.verbs })

/-- Modelled from the tests: `Living.remove(item, actor)` for a living in
location `n`; the inventory decomposition is `preI ++ it :: postI`. -/
def w2LivingRemoveItem (w : W2) (n : Nat) (pre post : List VLiving2) (l : VLiving2)
    (preI postI : List VItem2) (it : VItem2) : W2 :=
  updateLoc w n (fun r =>
    { r with
      livings := pre ++ ({ l with inventory := preI ++ postI } : VLiving2) :: post,
      verbs := r.verbs.diff it.verbs })

/-- Modelled from the tests: `Item.move(target, actor)` between locations —
remove-then-insert, one logical step. -/
def w2MoveItem (w : W2) (n1 : Nat) (pre post : List VItem2) (it : VItem2) (n2 : Nat) : W2 :=
  w2InsertItem (w2RemoveItem w n1 pre post it) n2 it

/-- Modelled from the tests: `Living.move(target)` between locations —
remove-then-insert, one logical step. -/
def w2MoveLiving (w : W2) (n1 : Nat) (pre post : List VLiving2) (l : VLiving2) (n2 : Nat) :
    W2 :=
  w2InsertLiving (w2RemoveLiving w n1 pre post l) n2 l

/-- The reachable worlds: every removal names the actual decomposition of
the sets it works on. -/
inductive W2Reach : W2 → Prop
  | init : W2Reach w2Init
  | insertItem {w : W2} (n : Nat) (it : VItem2) (h : W2Reach w) :
      W2Reach (w2InsertItem w n it)
  | removeItem {w : W2} (n : Nat) (pre post : List VItem2) (it : VItem2) (h : W2Reach w)
      (hd : (w.locs n).items = pre ++ it :: post) :
      W2Reach (w2RemoveItem w n pre post it)
  | insertLiving {w : W2} (n : Nat) (l : VLiving2) (h : W2Reach w) :
      W2Reach (w2InsertLiving w n l)
  | removeLiving {w : W2} (n : Nat) (pre post : List VLiving2) (l : VLiving2) (h : W2Reach w)
      (hd : (w.locs n).livings = pre ++ l :: post) :
      W2Reach (w2RemoveLiving w n pre post l)
  | livingInsertItem {w : W2} (n : Nat) (pre post : List VLiving2) (l : VLiving2)
      (it : VItem2) (h : W2Reach w)
      (hd : (w.locs n).livings = pre ++ l :: post) :
      W2Reach (w2LivingInsertItem w n pre post l it)
  | livingRemoveItem {w : W2} (n : Nat) (pre post : List VLiving2) (l : VLiving2)
      (preI postI : List VItem2) (it : VItem2) (h : W2Reach w)
      (hd : (w.locs n).livings = pre ++ l :: post)
      (hdI : l.inventory = preI ++ it :: postI) :
      W2Reach (w2LivingRemoveItem w n pre post l preI postI it)
  | moveItem {w : W2} (n1 : Nat) (pre post : List VItem2) (it : VItem2) (n2 : Nat)
      (h : W2Reach w) (hd : (w.locs n1).items = pre ++ it :: post) :
      W2Reach (w2MoveItem w n1 pre post it n2)
  | moveLiving {w : W2} (n1 : Nat) (pre post : List VLiving2) (l : VLiving2) (n2 : Nat)
      (h : W2Reach w) (hd : (w.locs n1).livings = pre ++ l :: post) :
      W2Reach (w2MoveLiving w n1 pre post l n2)

/-- The two-level verb aggregate of a room, as a multiset: the verbs of the
items and livings present, and of the items in present livings'
inventories. -/
def roomVerbMultiset (r : VRoom) : Multiset String :=
  (r.items.flatMap VItem2.verbs : List String) +
    (r.livings.flatMap livingAllVerbs : List String)

/-- The verb aggregate invariant: every location's `verbs` list carries, as
a multiset, the verbs of its direct content plus those of the items in
present livings' inventories. -/
def W2Inv (w : W2) : Prop :=
  ∀ n, (((w.locs n).verbs : List String) : Multiset String) = roomVerbMultiset (w.locs n)

/-- The aggregate the spec describes in §3: only the verbs of items and
livings directly present, not recursive into inventories.  (Stated from the
words of the spec, to be compared against the behaviour above.) -/
def specDirectVerbs (r : VRoom) : List String :=
  r.items.flatMap VItem2.verbs ++ r.livings.flatMap VLiving2.verbs

/-- The scenario of `test_custom_verbs`: room 1 receives a chair with verb
"frobnitz", a player with verb "xywobble", a second chair with verb
"frobnitz"; then the player pockets a chair with verb "kowabooga". -/
def w2Ex : W2 :=
  w2LivingInsertItem
    (w2InsertItem
      (w2InsertLiving (w2InsertItem w2Init 1 ⟨["frobnitz"]⟩) 1 ⟨["xywobble"], []⟩)
      1 ⟨["frobnitz"]⟩)
    1 [] [] ⟨["xywobble"], []⟩ ⟨["kowabooga"]⟩

/-! ## C9 — lang.join on identical words

Embedded from `src/tale/lang.py`: `join`, its helper `apply_amount`,
`spell_number` (on the natural-number path its integer branch takes) and
`pluralize`. -/

/-- `lang.py` line 162: the `__number_words` table. -/
def numberWords : List String :=
  ["zero", "one", "two", "three", "four", "five", "six", "seven", "eight", "nine", "ten",
   "eleven", "twelve", "thirteen", "fourteen", "fifteen", "sixteen", "seventeen",
   "eighteen", "nineteen", "twenty"]

/-- `lang.py` line 166: the `__tens_words` table (the two leading `None`
entries are never read and are embedded as `""`). -/
def tensWords : List String :=
  ["", "", "twenty", "thirty", "forty", "fifty", "sixty", "seventy", "eighty", "ninety"]

/-- `lang.py` lines 179-187: `spell_positive_int`. -/
def spellPositiveInt (n : Nat) : String :=
  if n ≤ 20 then numberWords.getD n (Nat.repr n)
  else
    let tens := n / 10
    let ones := n % 10
    if tens ≤ 9 then
      if ones > 0 then tensWords.getD tens "" ++ " " ++ numberWords.getD ones ""
      else tensWords.getD tens ""
    else Nat.repr n

/-- `lang.py` lines 171-207: `spell_number`, restricted to the natural
numbers (the only values `join`'s `apply_amount` passes): the sign is empty
and the fractional part is `0`, so the function returns
`spell_positive_int(whole)`. -/
def spellNumberNat (n : Nat) : String := spellPositiveInt n

/-- `lang.py` lines 210-234: the `__plural_irregularities` mapping. -/
def pluralIrregularities : List (String × String) :=
  [("mouse", "mice"), ("child", "children"), ("person", "people"), ("man", "men"),
   ("woman", "women"), ("foot", "feet"), ("goose", "geese"), ("tooth", "teeth"),
   ("aircraft", "aircraft"), ("fish", "fish"), ("headquarters", "headquarters"),
   ("sheep", "sheep"), ("species", "species"), ("cattle", "cattle"),
   ("scissors", "scissors"), ("trousers", "trousers"), ("pants", "pants"),
   ("tweezers", "tweezers"), ("congratulations", "congratulations"),
   ("pyjamas", "pyjamas"), ("photo", "photos"), ("piano", "pianos")]

/-- Python `word.endswith(sfx)` on code points. -/
def endsC (cs sfx : List Char) : Bool :=
  isPfx sfx.reverse cs.reverse

/-- `lang.py` lines 237-258: `pluralize(word, amount=2)`. -/
def pluralize (word : String) (amount : Nat := 2) : String :=
  if amount = 1 then word
  else
    match pluralIrregularities.lookup word with
    | some p => p
    | none =>
      let cs := word.data
      if endsC cs ['i', 's'] then String.mk (cs.dropLast.dropLast ++ ['e', 's'])
      else if endsC cs ['z'] then word ++ "zes"
      else if endsC cs ['s'] ∨ endsC cs ['c', 'h'] ∨ endsC cs ['x'] ∨ endsC cs ['s', 'h'] then
        word ++ "es"
      else if endsC cs ['y'] then
        if cs.length > 1 ∧ cs.getD (cs.length - 2) ' ' ∈ ['a', 'e', 'i', 'o', 'u'] then
          word ++ "s"
        else String.mk (cs.dropLast ++ ['i', 'e', 's'])
      else if endsC cs ['f'] then String.mk (cs.dropLast ++ ['v', 'e', 's'])
      else if endsC cs ['f', 'e'] then String.mk (cs.dropLast.dropLast ++ ['v', 'e', 's'])
      else if endsC cs ['o'] ∧ cs.length > 1 ∧
          cs.getD (cs.length - 2) ' ' ∉ ['a', 'e', 'i', 'o', 'u', 'y'] then
        word ++ "es"
      else word ++ "s"

/-- Python `word.partition(" ")` on code points: `none` when the word has no
space, otherwise the parts before and after the first space. -/
def breakAtSpace : List Char → Option (List Char × List Char)
  | [] => none
  | c :: rest =>
    if c = ' ' then some ([], rest)
    else
      match breakAtSpace rest with
      | none => none
      | some pr => some (c :: pr.1, pr.2)

/-- `lang.py` line 67: the `__articles` set. -/
def articleWords : List String := ["the", "a", "an"]

/-- `lang.py` lines 32-36 inside `apply_amount`: when the first
space-separated token is an article and is followed by more text, the
article is removed. -/
def stripArticleForCount (word : String) : String :=
  match breakAtSpace word.data with
  | none => word
  | some pr =>
    if pr.2 ≠ [] ∧ String.mk pr.1 ∈ articleWords then String.mk pr.2 else word

/-- `lang.py` lines 32-37: `apply_amount(count, word)`. -/
def applyAmount (count : Nat) (word : String) : String :=
  spellNumberNat count ++ " " ++ pluralize (stripArticleForCount word)

/-- `lang.py` line 56 (and the smaller cases the recursive
`join(words, conj, group_multi=False)` call can reach): joining without
grouping. -/
def joinNoGroup (words : List String) (conj : String) : String :=
  match words with
  | [] => ""
  | [w] => w
  | [w1, w2] => w1 ++ " " ++ conj ++ " " ++ w2
  | _ => interc ", " words.dropLast ++ ", " ++ conj ++ " " ++ words.getLastD ""

/-- `lang.py` lines 48-54: the `OrderedCounter` pass — every distinct word
in first-occurrence order, counted words rendered by `apply_amount`. -/
def groupedWords (words : List String) : List String :=
  words.dedup.map (fun w => if words.count w = 1 then w else applyAmount (words.count w) w)

/-- `lang.py` lines 26-56: `join(words, conj="and", group_multi=True)`.  The
recursive call always has `group_multi=False` and cannot recurse further, so
it is inlined as `joinNoGroup`.  Python's `len(set(words)) == 1` test is
`words.dedup.length = 1`. -/
def joinWords (words : List String) (conj : String) (groupMulti : Bool) : String :=
  match words with
  | [] => ""
  | w :: rest =>
    if rest.isEmpty then w
    else if groupMulti = true ∧ (w :: rest).dedup.length = 1 then
      applyAmount (rest.length + 1) w
    else
      match rest with
      | [w2] => w ++ " " ++ conj ++ " " ++ w2
      | _ =>
        if groupMulti then joinNoGroup (groupedWords (w :: rest)) conj
        else joinNoGroup (w :: rest) conj

/-! ## C10 — adverb_by_prefix

Embedded from `src/tale/lang.py` lines 102-118.  The adverb list itself is a
data file of the content collaborator and is not under `src/`, so the
function is embedded over an arbitrary sorted list of code-point sequences;
Python compares strings by code points, which is the `Char` order.

An out-of-range list access (Python `IndexError`) surfaces as `none`; the
embedding of a successful run is `some result`. -/

/-- Python string comparison `s < t` on code points. -/
def lexLtB : List Char → List Char → Bool
  | [], [] => false
  | [], _ :: _ => true
  | _ :: _, [] => false
  | a :: as, b :: bs => if a < b then true else if a = b then lexLtB as bs else false

/-- The reflexive closure of the code-point order: `a ≤ b`. -/
def lexLeP (a b : List Char) : Prop := lexLtB a b = true ∨ a = b

instance (a b : List Char) : Decidable (lexLeP a b) :=
  inferInstanceAs (Decidable (lexLtB a b = true ∨ a = b))

/-- The contract of `bisect.bisect_left(lst, x)` on a sorted list: the
number of leading elements strictly below `x` (the leftmost insertion
point). -/
def bisectLeft (lst : List (List Char)) (x : List Char) : Nat :=
  (lst.takeWhile (fun s => lexLtB s x)).length

/-- `lang.py` lines 113-115: the narrowing `while` loop
(`while amount > 1 and ADVERB_LIST[j].startswith(prefix)`), returning the
final `j`; the check `amount > 1` short-circuits, so the list is only read
when it holds, and an out-of-range read (Python `IndexError`) is `none`. -/
def abpLoop (lst : List (List Char)) (pfx : List Char) (j : Nat) : Nat → Option Nat
  | 0 => some j
  | amt + 1 =>
    if amt = 0 then some j
    else
      lst[j]?.bind fun s =>
        if isPfx pfx s then abpLoop lst pfx (j + 1) amt else some j

/-- `lang.py` lines 102-118: `adverb_by_prefix(prefix, amount)` over the
sorted list `lst`; the slice `lst[i:j]` is `(lst.drop i).take (j - i)`. -/
def adverbByPrefix (lst : List (List Char)) (pfx : List Char) (amount : Nat) :
    Option (List (List Char)) :=
  let i := bisectLeft lst pfx
  if i ≥ lst.length then some []
  else
    lst[i]?.bind fun s =>
      if isPfx pfx s then
        (abpLoop lst pfx (i + 1) (min amount (lst.length - i))).map
          fun j => (lst.drop i).take (j - i)
      else some []

/-! # Theorems -/

/-! ## C6 — Door transitions -/

/-- C6: the 2x2 Door transition table: `open` succeeds exactly from
closed-and-unlocked; opening an opened door is refused with a reason
containing "already" and opening a locked closed door with a reason
containing the word "can" with an apostrophe and "t"; `close` from opened
succeeds and preserves the lock state, closing a closed door is refused with
"already"; `lock` on an already-locked door is refused with "already" and on
a plain (non-lockable) unlocked door with the "can"-apostrophe-"t" word;
`unlock` is refused with "not" when the door is not locked and with the
"can"-apostrophe-"t" word when locking is unsupported. -/
theorem c6_door_transitions (d : Door) :
    (d.opened = false → d.locked = false → d.openDoor = .ok { d with opened := true }) ∧
    (∀ d2, d.openDoor = .ok d2 →
      d.opened = false ∧ d.locked = false ∧ d2 = { d with opened := true }) ∧
    (d.opened = true → ∃ r, d.openDoor = .error r ∧ strContains r "already" = true) ∧
    (d.opened = false → d.locked = true →
      ∃ r, d.openDoor = .error r ∧ strContains r cantWord = true) ∧
    (d.opened = true → d.closeDoor = .ok { d with opened := false }) ∧
    (d.opened = false → ∃ r, d.closeDoor = .error r ∧ strContains r "already" = true) ∧
    (d.locked = true → ∃ r, d.lockDoor = .error r ∧ strContains r "already" = true) ∧
    (d.lockable = false → d.locked = false →
      ∃ r, d.lockDoor = .error r ∧ strContains r cantWord = true) ∧
    (d.locked = false → ∃ r, d.unlockDoor = .error r ∧ strContains r "not" = true) ∧
    (d.lockable = false → d.locked = true →
      ∃ r, d.unlockDoor = .error r ∧ strContains r cantWord = true) := by
  obtain ⟨o, l, k⟩ := d
  cases o <;> cases l <;> cases k <;>
    simp only [Door.openDoor, Door.closeDoor, Door.lockDoor, Door.unlockDoor] <;>
    refine ⟨?_, ?_, ?_, ?_, ?_, ?_, ?_, ?_, ?_, ?_⟩ <;>
    intros <;> simp_all <;> decide

/-- C6 witness: a closed unlocked plain door opens. -/
theorem c6_door_transitions_witness :
    Door.openDoor ⟨false, false, false⟩ = .ok ⟨true, false, false⟩ :=
  (c6_door_transitions ⟨false, false, false⟩).1 rfl rfl

/-! ## C3 — remove of a non-member -/

/-- C3 counterexample: removing living `1` from a Location twice does not
raise on the second call — removing a non-member from a Location is a
silent no-op, not a keyed lookup failure (pinned by
`TestLocations.test_enter_leave`, which removes `rat1` twice and then
removes a value that never was a member, expecting no exception). -/
theorem c3_counterexample :
    locationRemove ⟨[], [1, 2]⟩ 1 = .ok ⟨[], [2]⟩ ∧
    locationRemove ⟨[], [2]⟩ 1 = .ok ⟨[], [2]⟩ :=
  ⟨rfl, rfl⟩

/-- C3 amended: `Container.remove` (and `Living.remove` past its permission
check) raises the keyed lookup failure `KeyError` exactly when the entity is
not a member; `Living.remove` raises `ActionRefused` when the actor is
neither the living itself nor a wizard; `Location.remove` never raises a
not-found error — removing a non-member from a Location leaves it unchanged
and returns normally. -/
theorem c3_amended (inv : List Nat) (loc : Loc3) (e selfId : Nat) (wizards : List Nat)
    (actor : Option Nat) :
    (e ∉ inv → containerRemove inv e = .error .keyError) ∧
    (e ∈ inv → containerRemove inv e = .ok (inv.erase e)) ∧
    (∃ loc2, locationRemove loc e = .ok loc2) ∧
    (e ∉ loc.items → e ∉ loc.livings → locationRemove loc e = .ok loc) ∧
    ((∀ a, actor = some a → a ≠ selfId ∧ a ∉ wizards) →
      ∃ r, livingRemove selfId wizards inv actor e = .error (.actionRefused r)) := by
  refine ⟨?_, ?_, ?_, ?_, ?_⟩
  · intro h; simp [containerRemove, h]
  · intro h; simp [containerRemove, h]
  · unfold locationRemove; split_ifs <;> exact ⟨_, rfl⟩
  · intro h1 h2; simp [locationRemove, h1, h2]
  · intro h
    match actor with
    | none => exact ⟨_, rfl⟩
    | some a =>
      have ha := h a rfl
      simp [livingRemove, ha.1, ha.2]

/-- C3 witness: removing from an empty container raises `KeyError`, while
removing from an empty Location returns it unchanged. -/
theorem c3_amended_witness :
    containerRemove [] 5 = .error .keyError ∧
    locationRemove ⟨[], []⟩ 5 = .ok ⟨[], []⟩ :=
  ⟨(c3_amended [] ⟨[], []⟩ 5 7 [] none).1 (by decide),
   (c3_amended [] ⟨[], []⟩ 5 7 [] none).2.2.2.1 (by decide) (by decide)⟩

/-! ## C7 — destroying a Location -/

/-- C7: destroying a Location empties its exits, items, livings and wiretaps
sets, relocates every contained Living to Limbo (they join Limbo's livings
set and their `location` points at Limbo), and the wiretaps any player had
installed remain listed in that player's `installed_wiretaps`. -/
theorem c7_destroy_location (w : DestroyWorld) (i : Nat) (hi : i ≠ limboId) :
    ((destroyLocation w i).locs i = emptyDLoc) ∧
    (∀ l ∈ (w.locs i).livings, (destroyLocation w i).livingLocation l = some limboId) ∧
    (∀ p, (destroyLocation w i).installedWiretaps p = w.installedWiretaps p) ∧
    (∀ l ∈ (w.locs i).livings, l ∈ ((destroyLocation w i).locs limboId).livings) := by
  refine ⟨?_, ?_, ?_, ?_⟩
  · simp [destroyLocation]
  · intro l hl; simp [destroyLocation, hl]
  · intro p; rfl
  · intro l hl
    have : limboId ≠ i := fun hEq => hi hEq.symm
    simp [destroyLocation, this, hl]

/-- C7 witness: in the concrete world, destroying location 1 relocates
living 5 to Limbo and leaves player 5's installed wiretap listed. -/
theorem c7_destroy_location_witness :
    (destroyLocation destroyWorldEx 1).livingLocation 5 = some limboId ∧
    (destroyLocation destroyWorldEx 1).installedWiretaps 5 = [9] :=
  ⟨(c7_destroy_location destroyWorldEx 1 (by decide)).2.1 5 (by simp [destroyWorldEx]),
   (c7_destroy_location destroyWorldEx 1 (by decide)).2.2.1 5⟩

/-! ## C8 — destroyed entities leave the deferred queue -/

/-- Invariant of the scheduler: no queued entry targets a destroyed
entity. -/
theorem schedReach_inv {w : SchedWorld} (h : SchedReach w) :
    ∀ d ∈ w.deferreds, d.target ∉ w.destroyed := by
  induction h with
  | init => intro d hd; simp at hd
  | deferStep whenDue target methodName h ht ih =>
    intro d hd
    rcases List.mem_append.1 hd with h1 | h1
    · exact ih d h1
    · simp only [List.mem_singleton] at h1
      subst h1
      simpa using ht
  | destroyStep e h ih =>
    intro d hd
    have h1 := List.mem_of_mem_filter hd
    have h2 := List.of_mem_filter hd
    simp only [bne_iff_ne, ne_eq, decide_eq_true_eq] at h2
    simp only [destroyEntity, List.mem_cons]
    rintro (hc | hc)
    · exact h2 hc
    · exact ih d h1 hc
  | tick now h ih =>
    intro d hd
    exact ih d (List.mem_of_mem_filter hd)

/-- C8: destroying an entity removes from the scheduler queue every deferred
entry whose target it is, and consequently no reachable scheduler state
queues an entry referencing a destroyed entity. -/
theorem c8_destroy_cancels_deferreds (w : SchedWorld) (h : SchedReach w) :
    (∀ e, ∀ d ∈ (destroyEntity w e).deferreds, d.target ≠ e) ∧
    (∀ d ∈ w.deferreds, d.target ∉ w.destroyed) := by
  refine ⟨?_, schedReach_inv h⟩
  intro e d hd
  have h2 := List.of_mem_filter hd
  simpa using h2

/-- C8 witness: after enqueueing an entry for entity 7 and destroying
entity 7, the entry's target is not among the destroyed... instantiated on
the surviving entry for entity 8. -/
theorem c8_destroy_cancels_deferreds_witness :
    (8 : Nat) ∉ (deferOp (destroyEntity (deferOp ⟨[], []⟩ 5 7 "m") 7) 3 8 "n").destroyed := by
  have hreach : SchedReach (deferOp (destroyEntity (deferOp ⟨[], []⟩ 5 7 "m") 7) 3 8 "n") :=
    SchedReach.deferStep 3 8 "n"
      (SchedReach.destroyStep 7 (SchedReach.deferStep 5 7 "m" SchedReach.init (by decide)))
      (by decide)
  have h := (c8_destroy_cancels_deferreds _ hreach).2 ⟨3, 8, "n"⟩ (by decide)
  simpa using h

/-! ## C5 — TextBuffer paragraphs -/

/-- Validation against `TestTextbuffer.test_empty_lines`: two empty
formatted prints are dropped. -/
theorem tbCheck_empty_formatted :
    ((TextBuffer.initBuf.print "" false true).print "" false true).getParagraphs = [] := by
  decide

/-- Validation against `TestTextbuffer.test_empty_lines`: two empty prints
with `end=True` give two newline paragraphs. -/
theorem tbCheck_end_true :
    ((TextBuffer.initBuf.print "" true true).print "" true true).getParagraphs =
      [("\n", true), ("\n", true)] := by
  decide

/-- Validation against `TestTextbuffer.test_empty_lines`: empty formatted
prints around "1","2" give one paragraph "1\n2\n". -/
theorem tbCheck_separator :
    ((((TextBuffer.initBuf.print "" false true).print "1" false true).print "2" false
          true).print "" false true).getParagraphs = [("1\n2\n", true)] := by
  decide

/-- Validation against `TestTextbuffer.test_end`: `end=True` closes
paragraphs. -/
theorem tbCheck_end_closes :
    (((((TextBuffer.initBuf.print "one" false true).print "1" true true).print "two" false
          true).print "2" true true).print "three" false true).getParagraphs =
      [("one\n1\n", true), ("two\n2\n", true), ("three\n", true)] := by
  decide

/-- Validation against `TestTextbuffer.test_strip`: a formatted line is
stripped, an unformatted line is verbatim. -/
theorem tbCheck_strip :
    (TextBuffer.initBuf.print "   1   " false true).getParagraphs = [("1\n", true)] ∧
    (TextBuffer.initBuf.print "   1   " false false).getParagraphs =
      [("   1   \n", false)] := by
  decide

/-- Validation against `TestPlayer.test_tell`: a run of five unformatted
prints ("", "line1", "", "line2", "") accumulates into the single paragraph
"\nline1\n\nline2\n\n". -/
theorem tbCheck_format_false_run :
    (((((TextBuffer.initBuf.print "" false false).print "line1" false false).print ""
          false false).print "line2" false false).print "" false false).getParagraphs =
      [("\nline1\n\nline2\n\n", false)] := by
  decide

/-- C5 counterexample: two consecutive `format=False` prints of the empty
string are merged into the single unformatted paragraph `("\n\n", False)` —
not two separate paragraphs as the claim states (pinned by
`TestTextbuffer.test_empty_lines`: "2 empty strings without format should be
stored in 1 paragraph with 2 new lines"). -/
theorem c5_counterexample :
    ((TextBuffer.initBuf.print "" false false).print "" false false).getParagraphs =
      [("\n\n", false)] ∧
    ((TextBuffer.initBuf.print "" false false).print "" false false).getParagraphs ≠
      [("\n", false), ("\n", false)] := by
  decide

/-- C5 amended: a `format=False` print preserves its text verbatim (no
stripping) and is never merged into a formatted paragraph — an open
formatted paragraph is closed first and a fresh unformatted paragraph
begun — but it does not always start and close its own paragraph: it merges
into an already-open unformatted paragraph, and the unformatted paragraph
stays open until a call with `end=True` (or a formatted print) closes it. -/
theorem c5_amended (buf : TextBuffer) (line : String) (endP : Bool) :
    (buf.current = none →
      buf.print line endP false =
        if endP then (⟨buf.closedParas ++ [⟨false, [line]⟩], none⟩ : TextBuffer)
        else ⟨buf.closedParas, some ⟨false, [line]⟩⟩) ∧
    (∀ p, buf.current = some p → p.format = true →
      buf.print line endP false =
        if endP then (⟨buf.closedParas ++ [p] ++ [⟨false, [line]⟩], none⟩ : TextBuffer)
        else ⟨buf.closedParas ++ [p], some ⟨false, [line]⟩⟩) ∧
    (∀ p, buf.current = some p → p.format = false →
      buf.print line endP false =
        if endP then (⟨buf.closedParas ++ [⟨false, p.lines ++ [line]⟩], none⟩ : TextBuffer)
        else ⟨buf.closedParas, some ⟨false, p.lines ++ [line]⟩⟩) := by
  refine ⟨?_, ?_, ?_⟩
  · intro h
    simp [TextBuffer.print, h]
  · intro p h hf
    simp [TextBuffer.print, h, hf]
  · intro p h hf
    obtain ⟨pf, pl⟩ := p
    simp at hf
    subst hf
    simp [TextBuffer.print, h]

/-- C5 witness: printing an unstripped line unformatted while a formatted
paragraph is open closes that paragraph and starts a fresh verbatim
unformatted one. -/
theorem c5_amended_witness :
    TextBuffer.print ⟨[], some ⟨true, ["x"]⟩⟩ "  y " false false =
      (⟨[⟨true, ["x"]⟩], some ⟨false, ["  y "]⟩⟩ : TextBuffer) := by
  have h := (c5_amended ⟨[], some ⟨true, ["x"]⟩⟩ "  y " false).2.1 ⟨true, ["x"]⟩ rfl rfl
  simpa using h

/-! ## C1 — containment invariant -/

/-- `insert` does not change the membership of any other entity. -/
theorem csInsert_memberOf_of_ne {s : ContainState} {i j c : Nat} (hji : j ≠ i) (x : Nat) :
    (j ∈ (csInsert s i c).memberOf x) ↔ j ∈ s.memberOf x := by
  cases hco : s.containedIn i with
  | none =>
    simp only [csInsert, hco]
    split_ifs <;> simp [hji]
  | some o =>
    simp only [csInsert, hco]
    split_ifs <;> simp [hji, Finset.mem_erase, Finset.mem_insert]

/-- `insert` does not repoint any other entity. -/
theorem csInsert_containedIn_of_ne {s : ContainState} {i j c : Nat} (hji : j ≠ i) :
    (csInsert s i c).containedIn j = s.containedIn j := by
  simp [csInsert, hji]

theorem csInsert_containedIn_self (s : ContainState) (i c : Nat) :
    (csInsert s i c).containedIn i = some c := by
  simp [csInsert]

/-- After `insert`, the entity is a member of the target's set. -/
theorem csInsert_mem_self (s : ContainState) (i c : Nat) :
    i ∈ (csInsert s i c).memberOf c := by
  cases hco : s.containedIn i <;> simp [csInsert, hco]

/-- After `insert`, the entity is in no set other than the target's. -/
theorem csInsert_not_mem_other {s : ContainState} (hinv : ContainInv s) {i c : Nat}
    (hii : i ∈ s.items) {c2 : Nat} (hc2 : c2 ∈ s.containers) (hne : c2 ≠ c) :
    i ∉ (csInsert s i c).memberOf c2 := by
  cases hco : s.containedIn i with
  | none =>
    simp only [csInsert, hco, if_neg hne]
    exact ((hinv i hii).1 hco) c2 hc2
  | some o =>
    by_cases hc2o : c2 = o
    · subst hc2o
      simp only [csInsert, hco, if_pos rfl, if_neg hne]
      exact Finset.not_mem_erase i _
    · simp only [csInsert, hco, if_neg hne, if_neg hc2o]
      intro hmem
      exact hc2o (((hinv i hii).2 o hco).2.2 c2 hc2 hmem)

/-- `insert` preserves the containment invariant. -/
theorem containInv_csInsert {s : ContainState} (hinv : ContainInv s) {i c : Nat}
    (hc : c ∈ s.containers) : ContainInv (csInsert s i c) := by
  intro j hj
  have hjitems : j ∈ s.items := hj
  by_cases hji : j = i
  · subst hji
    constructor
    · intro hnone
      rw [csInsert_containedIn_self] at hnone
      exact Option.noConfusion hnone
    · intro c2 hc2
      rw [csInsert_containedIn_self] at hc2
      have hcc : c2 = c := (Option.some.inj hc2).symm
      subst hcc
      refine ⟨hc, csInsert_mem_self s j c2, ?_⟩
      intro c3 hc3 hmem
      by_cases hc3c : c3 = c2
      · exact hc3c
      · exact absurd hmem (csInsert_not_mem_other hinv hjitems hc3 hc3c)
  · obtain ⟨h1, h2⟩ := hinv j hjitems
    constructor
    · intro hnone c2 hc2
      rw [csInsert_containedIn_of_ne hji] at hnone
      rw [csInsert_memberOf_of_ne hji]
      exact h1 hnone c2 hc2
    · intro c2 hc2
      rw [csInsert_containedIn_of_ne hji] at hc2
      obtain ⟨hb1, hb2, hb3⟩ := h2 c2 hc2
      refine ⟨hb1, (csInsert_memberOf_of_ne hji c2).2 hb2, ?_⟩
      intro c3 hc3 hmem
      exact hb3 c3 hc3 ((csInsert_memberOf_of_ne hji c3).1 hmem)

/-- `remove` preserves the containment invariant. -/
theorem containInv_csRemove {s : ContainState} (hinv : ContainInv s) (i : Nat) :
    ContainInv (csRemove s i) := by
  cases hco : s.containedIn i with
  | none =>
    have heq : csRemove s i = s := by unfold csRemove; rw [hco]
    rw [heq]; exact hinv
  | some o =>
    have heq : csRemove s i =
        { s with
          memberOf := fun x => if x = o then (s.memberOf x).erase i else s.memberOf x,
          containedIn := fun x => if x = i then none else s.containedIn x } := by
      unfold csRemove; rw [hco]
    rw [heq]
    intro j hj
    have hjitems : j ∈ s.items := hj
    by_cases hji : j = i
    · subst hji
      constructor
      · intro _ c hcin
        dsimp only
        by_cases hcoo : c = o
        · subst hcoo; rw [if_pos rfl]; exact Finset.not_mem_erase j _
        · rw [if_neg hcoo]
          intro hmem
          exact hcoo (((hinv j hjitems).2 o hco).2.2 c hcin hmem)
      · intro c hcin
        simp at hcin
    · obtain ⟨h1, h2⟩ := hinv j hjitems
      constructor
      · intro hnone c hcin
        dsimp only at hnone ⊢
        rw [if_neg hji] at hnone
        by_cases hcoo : c = o
        · subst hcoo
          rw [if_pos rfl]
          intro hmem
          exact h1 hnone c hcin (Finset.mem_of_mem_erase hmem)
        · rw [if_neg hcoo]
          exact h1 hnone c hcin
      · intro c hcin
        dsimp only at hcin ⊢
        rw [if_neg hji] at hcin
        obtain ⟨hb1, hb2, hb3⟩ := h2 c hcin
        refine ⟨hb1, ?_, ?_⟩
        · by_cases hcoo : c = o
          · subst hcoo; rw [if_pos rfl]; exact Finset.mem_erase_of_ne_of_mem hji hb2
          · rw [if_neg hcoo]; exact hb2
        · intro c2 hc2 hmem
          by_cases hcoo : c2 = o
          · subst hcoo
            rw [if_pos rfl] at hmem
            exact hb3 c2 hc2 (Finset.mem_of_mem_erase hmem)
          · rw [if_neg hcoo] at hmem
            exact hb3 c2 hc2 hmem

/-- Registering a fresh item preserves the containment invariant. -/
theorem containInv_csNewItem {s : ContainState} (hinv : ContainInv s) {i : Nat}
    (hfree : s.containedIn i = none) (hout : ∀ c, i ∉ s.memberOf c) :
    ContainInv (csNewItem s i) := by
  intro j hj
  have : j = i ∨ j ∈ s.items := by simpa [csNewItem] using hj
  cases this with
  | inl h =>
    subst h
    constructor
    · intro _ c _
      exact hout c
    · intro c hc
      rw [show (csNewItem s j).containedIn j = s.containedIn j from rfl, hfree] at hc
      exact Option.noConfusion hc
  | inr h => exact hinv j h

/-- Registering a fresh container preserves the containment invariant. -/
theorem containInv_csNewContainer {s : ContainState} (hinv : ContainInv s) {c : Nat}
    (hempty : s.memberOf c = ∅) : ContainInv (csNewContainer s c) := by
  intro j hj
  obtain ⟨h1, h2⟩ := hinv j hj
  constructor
  · intro hnone c2 hc2
    have : c2 = c ∨ c2 ∈ s.containers := by simpa [csNewContainer] using hc2
    cases this with
    | inl h => subst h; rw [show (csNewContainer s c2).memberOf c2 = s.memberOf c2 from rfl,
        hempty]; exact Finset.not_mem_empty j
    | inr h => exact h1 hnone c2 h
  · intro c2 hc2
    obtain ⟨hb1, hb2, hb3⟩ := h2 c2 hc2
    refine ⟨List.mem_cons_of_mem c hb1, hb2, ?_⟩
    intro c3 hc3 hmem
    have : c3 = c ∨ c3 ∈ s.containers := by simpa [csNewContainer] using hc3
    cases this with
    | inl h =>
      subst h
      rw [show (csNewContainer s c3).memberOf c3 = s.memberOf c3 from rfl, hempty] at hmem
      exact absurd hmem (Finset.not_mem_empty j)
    | inr h => exact hb3 c3 h hmem

/-- `remove` keeps the list of registered containers. -/
theorem csRemove_containers (s : ContainState) (i : Nat) :
    (csRemove s i).containers = s.containers := by
  cases hco : s.containedIn i <;> simp [csRemove, hco]

/-- Every reachable containment state satisfies the invariant. -/
theorem creach_containInv {s : ContainState} (h : CReach s) : ContainInv s := by
  induction h with
  | init => intro i hi; simp [csInit] at hi
  | newItem i h hfree hout ih => exact containInv_csNewItem ih hfree hout
  | newContainer c h hempty ih => exact containInv_csNewContainer ih hempty
  | insertStep i c h hi hc ih => exact containInv_csInsert ih hc
  | removeStep i h ih => exact containInv_csRemove ih i
  | moveStep i c h hi hc ih =>
    exact containInv_csInsert (containInv_csRemove ih i)
      (by rw [csRemove_containers]; exact hc)

/-- C1: at every reachable state of the world graph, an Item's
`contained_in` is `None` exactly when it is a member of no Container or
Location membership set; otherwise it is a member of exactly one such set,
the one of the owner `contained_in` points at.  The reachability relation
closes the states under `insert`, `remove` and `move` (each a single
state-transforming step with no intermediate state), so each operation
preserves the property. -/
theorem c1_containment_invariant (s : ContainState) (h : CReach s) :
    ∀ i ∈ s.items,
      (s.containedIn i = none ↔ ∀ c ∈ s.containers, i ∉ s.memberOf c) ∧
      (∀ c, s.containedIn i = some c →
        c ∈ s.containers ∧ i ∈ s.memberOf c ∧
          ∀ c2 ∈ s.containers, i ∈ s.memberOf c2 → c2 = c) := by
  have hinv := creach_containInv h
  intro i hi
  obtain ⟨h1, h2⟩ := hinv i hi
  refine ⟨⟨h1, ?_⟩, h2⟩
  intro hall
  cases hci : s.containedIn i with
  | none => rfl
  | some c =>
    obtain ⟨hb1, hb2, _⟩ := h2 c hci
    exact absurd hb2 (hall c hb1)

/-- C1 witness: in the concrete reachable state, item 5 is a member of its
owner container 10. -/
theorem c1_containment_invariant_witness : 5 ∈ csEx.memberOf 10 := by
  have hreach : CReach csEx :=
    CReach.insertStep 5 10
      (CReach.newItem 5 (CReach.newContainer 10 CReach.init rfl) rfl
        (fun c => Finset.not_mem_empty 5))
      (List.mem_cons_self 5 []) (List.mem_cons_self 10 [])
  have h := (c1_containment_invariant csEx hreach 5 (List.mem_cons_self 5 [])).2 10
    (by simp [csEx, csInsert, csNewItem, csNewContainer, csInit])
  exact h.2.1

/-! ## C4 — handle_verb broadcast -/

/-- One invocation returns success exactly when the verb is registered. -/
theorem handleVerb_fst (verb : String) (e : VEnt) :
    (VEnt.handleVerb verb e).1 = decide (verb ∈ e.verbs) := by
  unfold VEnt.handleVerb
  by_cases h : verb ∈ e.verbs <;> simp [h]

/-- One invocation updates the entity exactly as `touch` does. -/
theorem handleVerb_snd (verb : String) (e : VEnt) :
    (VEnt.handleVerb verb e).2 = touch verb e := by
  unfold VEnt.handleVerb touch
  by_cases h : verb ∈ e.verbs <;> simp [h]

/-- Broadcast over a list: OR of the results, every entity touched once. -/
theorem handleAll_spec (verb : String) (es : List VEnt) :
    (handleAll verb es).1 = es.any (fun e => decide (verb ∈ e.verbs)) ∧
    (handleAll verb es).2 = es.map (touch verb) := by
  induction es with
  | nil => simp [handleAll]
  | cons e rest ih =>
    simp [handleAll, handleVerb_fst, handleVerb_snd, ih.1, ih.2]

/-- Broadcast over livings: each living and each item of its personal
inventory, OR of results, all touched once. -/
theorem handleLivings_spec (verb : String) (ls : List VLiving4) :
    (handleLivings verb ls).1 =
      (ls.flatMap (fun l => l.entity :: l.inventory)).any (fun e => decide (verb ∈ e.verbs)) ∧
    (handleLivings verb ls).2 =
      ls.map (fun l =>
        (⟨touch verb l.entity, l.inventory.map (touch verb)⟩ : VLiving4)) := by
  induction ls with
  | nil => simp [handleLivings]
  | cons l rest ih =>
    constructor
    · simp [handleLivings, handleVerb_fst, (handleAll_spec verb l.inventory).1, ih.1,
        Bool.or_assoc]
    · simp [handleLivings, handleVerb_snd, (handleAll_spec verb l.inventory).2, ih.2]

/-- The reached entities of the touched livings are the touched reached
entities. -/
theorem reach_map_touch (verb : String) (ls : List VLiving4) :
    (ls.map (fun l =>
        (⟨touch verb l.entity, l.inventory.map (touch verb)⟩ : VLiving4))).flatMap
        (fun l => l.entity :: l.inventory) =
      (ls.flatMap (fun l => l.entity :: l.inventory)).map (touch verb) := by
  induction ls with
  | nil => rfl
  | cons l rest ih => simp [ih]

/-- C4: `handle_verb` broadcasts to every item directly present, every
living directly present and every item inside each present living's
inventory; each such entity's handler runs exactly once — no
short-circuit — (its invocation counter rises by one, the list of reached
entities is mapped pointwise through the single-invocation effect), the
aggregate result is the logical OR of the individual results (the verb is
registered with some reached entity); dispatching a verb registered with no
reached entity returns `False`, and, when the handled flags start out
`False`, dispatching a verb registered with exactly one reached entity
returns `True` with exactly one handled flag set, on an entity owning the
verb. -/
theorem c4_handle_verb_broadcast (loc : VLoc4) (verb : String) :
    ((loc.handleVerb verb).1 = (reachEntities loc).any (fun e => decide (verb ∈ e.verbs))) ∧
    (reachEntities (loc.handleVerb verb).2 = (reachEntities loc).map (touch verb)) ∧
    ((reachEntities (loc.handleVerb verb).2).map (fun e => e.invoked) =
      (reachEntities loc).map (fun e => e.invoked + 1)) ∧
    ((∀ e ∈ reachEntities loc, verb ∉ e.verbs) → (loc.handleVerb verb).1 = false) ∧
    ((∃ e0 ∈ reachEntities loc, verb ∈ e0.verbs) → (loc.handleVerb verb).1 = true) ∧
    ((∀ e ∈ reachEntities loc, e.handled = false) →
      (reachEntities loc).countP (fun e => decide (verb ∈ e.verbs)) = 1 →
      (loc.handleVerb verb).1 = true ∧
      (reachEntities (loc.handleVerb verb).2).countP (fun e => e.handled) = 1 ∧
      ∀ e2 ∈ reachEntities (loc.handleVerb verb).2, e2.handled = true → verb ∈ e2.verbs) := by
  have hfst : (loc.handleVerb verb).1 =
      (reachEntities loc).any (fun e => decide (verb ∈ e.verbs)) := by
    unfold VLoc4.handleVerb reachEntities
    simp [(handleAll_spec verb loc.items).1, (handleLivings_spec verb loc.livings).1]
  have hsnd : reachEntities (loc.handleVerb verb).2 =
      (reachEntities loc).map (touch verb) := by
    unfold VLoc4.handleVerb reachEntities
    simp [(handleAll_spec verb loc.items).2, (handleLivings_spec verb loc.livings).2,
      reach_map_touch]
  refine ⟨hfst, hsnd, ?_, ?_, ?_, ?_⟩
  · rw [hsnd, List.map_map]
    rfl
  · intro h
    rw [hfst]
    simp only [List.any_eq_false, decide_eq_true_eq]
    exact h
  · rintro ⟨e0, he0, hm⟩
    rw [hfst]
    simp only [List.any_eq_true, decide_eq_true_eq]
    exact ⟨e0, he0, hm⟩
  · intro hflags hcount
    have hone : (loc.handleVerb verb).1 = true := by
      rw [hfst]
      simp only [List.any_eq_true, decide_eq_true_eq]
      have hpos : 0 < (reachEntities loc).countP (fun e => decide (verb ∈ e.verbs)) := by
        omega
      obtain ⟨e0, he0, hm⟩ := (List.countP_pos_iff).1 hpos
      exact ⟨e0, he0, by simpa using hm⟩
    refine ⟨hone, ?_, ?_⟩
    · rw [hsnd, List.countP_map]
      have : ((reachEntities loc).countP ((fun e => e.handled) ∘ touch verb)) =
          (reachEntities loc).countP (fun e => decide (verb ∈ e.verbs)) := by
        apply List.countP_congr
        intro e he
        simp [touch, Function.comp, hflags e he]
      rw [this]
      exact hcount
    · rw [hsnd]
      intro e2 he2 hh
      obtain ⟨e, he, heq⟩ := List.mem_map.1 he2
      subst heq
      have : e.handled = false := hflags e he
      simp only [touch, this, Bool.false_or, decide_eq_true_eq] at hh
      simpa [touch] using hh

/-- C4 witness: in the concrete room (chair "frobnitz", player "xywobble"
carrying a chair "kerwaffle"), dispatching "frobnitz" reports handled and
sets exactly one handled flag. -/
theorem c4_handle_verb_broadcast_witness :
    (vLocEx.handleVerb "frobnitz").1 = true ∧
    (reachEntities (vLocEx.handleVerb "frobnitz").2).countP (fun e => e.handled) = 1 := by
  have h := (c4_handle_verb_broadcast vLocEx "frobnitz").2.2.2.2.2 (by decide) (by decide)
  exact ⟨h.1, h.2.1⟩

/-! ## C2 — the aggregate verbs of a Location -/

theorem coe_flatMap_append {α β : Type} (f : α → List β) (l1 l2 : List α) :
    (((l1 ++ l2).flatMap f : List β) : Multiset β) =
      ((l1.flatMap f : List β) : Multiset β) + ((l2.flatMap f : List β) : Multiset β) := by
  rw [List.flatMap_append, ← Multiset.coe_add]

theorem coe_flatMap_cons {α β : Type} (f : α → List β) (a : α) (l : List α) :
    (((a :: l).flatMap f : List β) : Multiset β) =
      ((f a : List β) : Multiset β) + ((l.flatMap f : List β) : Multiset β) := by
  rw [List.flatMap_cons, ← Multiset.coe_add]

theorem w2Inv_insertItem {w : W2} (hinv : W2Inv w) (n : Nat) (it : VItem2) :
    W2Inv (w2InsertItem w n it) := by
  intro n0
  unfold w2InsertItem updateLoc
  dsimp only
  by_cases hn : n0 = n
  · rw [if_pos hn]
    have h := hinv n0
    unfold roomVerbMultiset at h ⊢
    dsimp only
    rw [← Multiset.coe_add, h, coe_flatMap_append, coe_flatMap_cons]
    simp only [List.flatMap_nil]
    abel
  · rw [if_neg hn]
    exact hinv n0

theorem w2Inv_removeItem {w : W2} (hinv : W2Inv w) (n : Nat) (pre post : List VItem2)
    (it : VItem2) (hd : (w.locs n).items = pre ++ it :: post) :
    W2Inv (w2RemoveItem w n pre post it) := by
  intro n0
  unfold w2RemoveItem updateLoc
  dsimp only
  by_cases hn : n0 = n
  · subst hn
    rw [if_pos rfl]
    have h := hinv n0
    unfold roomVerbMultiset at h ⊢
    dsimp only
    rw [hd] at h
    rw [coe_flatMap_append, coe_flatMap_cons] at h
    have hsplit : (((w.locs n0).verbs : List String) : Multiset String) =
        (((pre.flatMap VItem2.verbs : List String) : Multiset String) +
          ((post.flatMap VItem2.verbs : List String) : Multiset String) +
          (((w.locs n0).livings.flatMap livingAllVerbs : List String) : Multiset String)) +
          ((it.verbs : List String) : Multiset String) := by
      rw [h]; abel
    rw [← Multiset.coe_sub, hsplit, add_tsub_cancel_right, coe_flatMap_append]
  · rw [if_neg hn]
    exact hinv n0

theorem w2Inv_insertLiving {w : W2} (hinv : W2Inv w) (n : Nat) (l : VLiving2) :
    W2Inv (w2InsertLiving w n l) := by
  intro n0
  unfold w2InsertLiving updateLoc
  dsimp only
  by_cases hn : n0 = n
  · rw [if_pos hn]
    have h := hinv n0
    unfold roomVerbMultiset at h ⊢
    dsimp only
    rw [← Multiset.coe_add, h, coe_flatMap_append, coe_flatMap_cons]
    simp only [List.flatMap_nil]
    abel
  · rw [if_neg hn]
    exact hinv n0

theorem w2Inv_removeLiving {w : W2} (hinv : W2Inv w) (n : Nat) (pre post : List VLiving2)
    (l : VLiving2) (hd : (w.locs n).livings = pre ++ l :: post) :
    W2Inv (w2RemoveLiving w n pre post l) := by
  intro n0
  unfold w2RemoveLiving updateLoc
  dsimp only
  by_cases hn : n0 = n
  · subst hn
    rw [if_pos rfl]
    have h := hinv n0
    unfold roomVerbMultiset at h ⊢
    dsimp only
    rw [hd] at h
    rw [coe_flatMap_append, coe_flatMap_cons] at h
    have hsplit : (((w.locs n0).verbs : List String) : Multiset String) =
        ((((w.locs n0).items.flatMap VItem2.verbs : List String) : Multiset String) +
          ((pre.flatMap livingAllVerbs : List String) : Multiset String) +
          ((post.flatMap livingAllVerbs : List String) : Multiset String)) +
          ((livingAllVerbs l : List String) : Multiset String) := by
      rw [h]; abel
    rw [← Multiset.coe_sub, hsplit, add_tsub_cancel_right, coe_flatMap_append]
    abel
  · rw [if_neg hn]
    exact hinv n0

/-- Pocketing an item adds exactly its verbs to the living's contribution. -/
theorem coe_livingAllVerbs_snoc (l : VLiving2) (it : VItem2) :
    ((livingAllVerbs ({ l with inventory := l.inventory ++ [it] } : VLiving2) : List String) :
        Multiset String) =
      ((livingAllVerbs l : List String) : Multiset String) +
        ((it.verbs : List String) : Multiset String) := by
  unfold livingAllVerbs
  dsimp only
  simp only [List.flatMap_append, List.flatMap_cons, List.flatMap_nil, List.append_nil,
    ← Multiset.coe_add]
  abel

/-- Dropping an inventory item splits exactly its verbs off the living's
contribution. -/
theorem coe_livingAllVerbs_split (l : VLiving2) (preI postI : List VItem2) (it : VItem2)
    (hdI : l.inventory = preI ++ it :: postI) :
    ((livingAllVerbs l : List String) : Multiset String) =
      ((livingAllVerbs ({ l with inventory := preI ++ postI } : VLiving2) : List String) :
          Multiset String) +
        ((it.verbs : List String) : Multiset String) := by
  unfold livingAllVerbs
  dsimp only
  rw [hdI]
  simp only [List.flatMap_append, List.flatMap_cons, List.flatMap_nil, List.append_nil,
    ← Multiset.coe_add]
  abel

theorem w2Inv_livingInsertItem {w : W2} (hinv : W2Inv w) (n : Nat)
    (pre post : List VLiving2) (l : VLiving2) (it : VItem2)
    (hd : (w.locs n).livings = pre ++ l :: post) :
    W2Inv (w2LivingInsertItem w n pre post l it) := by
  intro n0
  unfold w2LivingInsertItem updateLoc
  dsimp only
  by_cases hn : n0 = n
  · subst hn
    rw [if_pos rfl]
    have h := hinv n0
    unfold roomVerbMultiset at h ⊢
    dsimp only
    rw [hd] at h
    rw [coe_flatMap_append, coe_flatMap_cons] at h
    rw [← Multiset.coe_add, h, coe_flatMap_append, coe_flatMap_cons,
      coe_livingAllVerbs_snoc]
    abel
  · rw [if_neg hn]
    exact hinv n0

theorem w2Inv_livingRemoveItem {w : W2} (hinv : W2Inv w) (n : Nat)
    (pre post : List VLiving2) (l : VLiving2) (preI postI : List VItem2) (it : VItem2)
    (hd : (w.locs n).livings = pre ++ l :: post)
    (hdI : l.inventory = preI ++ it :: postI) :
    W2Inv (w2LivingRemoveItem w n pre post l preI postI it) := by
  intro n0
  unfold w2LivingRemoveItem updateLoc
  dsimp only
  by_cases hn : n0 = n
  · subst hn
    rw [if_pos rfl]
    have h := hinv n0
    unfold roomVerbMultiset at h ⊢
    dsimp only
    rw [hd] at h
    rw [coe_flatMap_append, coe_flatMap_cons,
      coe_livingAllVerbs_split l preI postI it hdI] at h
    have hsplit : (((w.locs n0).verbs : List String) : Multiset String) =
        ((((w.locs n0).items.flatMap VItem2.verbs : List String) : Multiset String) +
          ((pre.flatMap livingAllVerbs : List String) : Multiset String) +
          ((livingAllVerbs ({ l with inventory := preI ++ postI } : VLiving2) : List String) :
            Multiset String) +
          ((post.flatMap livingAllVerbs : List String) : Multiset String)) +
          ((it.verbs : List String) : Multiset String) := by
      rw [h]; abel
    rw [← Multiset.coe_sub, hsplit, add_tsub_cancel_right, coe_flatMap_append,
      coe_flatMap_cons]
    abel
  · rw [if_neg hn]
    exact hinv n0

/-- Every reachable world satisfies the verb aggregate invariant. -/
theorem w2Reach_inv {w : W2} (h : W2Reach w) : W2Inv w := by
  induction h with
  | init => intro n; rfl
  | insertItem n it h ih => exact w2Inv_insertItem ih n it
  | removeItem n pre post it h hd ih => exact w2Inv_removeItem ih n pre post it hd
  | insertLiving n l h ih => exact w2Inv_insertLiving ih n l
  | removeLiving n pre post l h hd ih => exact w2Inv_removeLiving ih n pre post l hd
  | livingInsertItem n pre post l it h hd ih =>
    exact w2Inv_livingInsertItem ih n pre post l it hd
  | livingRemoveItem n pre post l preI postI it h hd hdI ih =>
    exact w2Inv_livingRemoveItem ih n pre post l preI postI it hd hdI
  | moveItem n1 pre post it n2 h hd ih =>
    exact w2Inv_insertItem (w2Inv_removeItem ih n1 pre post it hd) n2 it
  | moveLiving n1 pre post l n2 h hd ih =>
    exact w2Inv_insertLiving (w2Inv_removeLiving ih n1 pre post l hd) n2 l

/-- C2 counterexample: replaying `test_custom_verbs` — after the player (in
room 1) pockets the chair with verb "kowabooga", that verb is in the room's
aggregate `verbs` although the chair is not directly present in the room:
the aggregate is not the concatenation of the verbs of the entities directly
present only. -/
theorem c2_counterexample :
    "kowabooga" ∈ (w2Ex.locs 1).verbs ∧
    "kowabooga" ∉ specDirectVerbs (w2Ex.locs 1) := by
  decide

/-- C2 amended: at every reachable state, a Location's `verbs` equals — as a
multiset — the verbs of every item and living directly present **plus** the
verbs of the items inside each present living's personal inventory; the
aggregate changes exactly through the insert/remove/move operations the
reachability relation is closed under. -/
theorem c2_location_verbs (w : W2) (h : W2Reach w) :
    ∀ n, (((w.locs n).verbs : List String) : Multiset String) = roomVerbMultiset (w.locs n) :=
  w2Reach_inv h

/-- C2 witness: the invariant holds at the replayed `test_custom_verbs`
state. -/
theorem c2_location_verbs_witness :
    (((w2Ex.locs 1).verbs : List String) : Multiset String) = roomVerbMultiset (w2Ex.locs 1) := by
  have hreach : W2Reach w2Ex := by
    apply W2Reach.livingInsertItem 1 [] [] ⟨["xywobble"], []⟩ ⟨["kowabooga"]⟩
    · exact W2Reach.insertItem 1 ⟨["frobnitz"]⟩
        (W2Reach.insertLiving 1 ⟨["xywobble"], []⟩
          (W2Reach.insertItem 1 ⟨["frobnitz"]⟩ W2Reach.init))
    · decide
  exact c2_location_verbs w2Ex hreach 1

/-! ## C9 — join on identical words -/

/-- Deduplicating a non-empty constant list leaves the single word. -/
theorem dedup_replicate (w : String) (m : Nat) (h : 1 ≤ m) :
    (List.replicate m w).dedup = [w] := by
  induction m with
  | zero => omega
  | succ k ih =>
    cases k with
    | zero => simp
    | succ k2 =>
      rw [List.replicate_succ, List.dedup_cons_of_mem (by simp)]
      exact ih (by omega)

/-- C9: `join` with `group_multi=True` on `n ≥ 2` identical copies of a word
returns the counted plural form: the spelled-out number, a space, and the
pluralized word with a leading article (one of "the"/"a"/"an" followed by
further text) removed. -/
theorem c9_join_identical (w conj : String) (n : Nat) (h : 2 ≤ n) :
    joinWords (List.replicate n w) conj true =
      spellNumberNat n ++ " " ++ pluralize (stripArticleForCount w) := by
  obtain ⟨k, rfl⟩ : ∃ k, n = k + 2 := ⟨n - 2, by omega⟩
  rw [List.replicate_succ]
  simp only [joinWords]
  rw [if_neg (by simp), if_pos ?cond]
  case cond =>
    refine ⟨by trivial, ?_⟩
    rw [← List.replicate_succ, dedup_replicate w (k + 2) (by omega)]
    rfl
  rw [List.length_replicate]
  rfl

/-- C9 witness: two keys. -/
theorem c9_join_identical_witness :
    joinWords (List.replicate 2 "key") "and" true = "two keys" := by
  rw [c9_join_identical "key" "and" 2 (by omega)]
  rfl

/-! ## C10 — adverb_by_prefix -/

theorem isPfx_refl (p : List Char) : isPfx p p = true := by
  induction p with
  | nil => rfl
  | cons a as ih => simp [isPfx, ih]

theorem lexLtB_trans {a : List Char} : ∀ {b c : List Char},
    lexLtB a b = true → lexLtB b c = true → lexLtB a c = true := by
  induction a with
  | nil =>
    intro b c hab hbc
    cases b with
    | nil => simp [lexLtB] at hab
    | cons bh bt =>
      cases c with
      | nil => simp [lexLtB] at hbc
      | cons ch ct => simp [lexLtB]
  | cons ah at2 ih =>
    intro b c hab hbc
    cases b with
    | nil => simp [lexLtB] at hab
    | cons bh bt =>
      cases c with
      | nil => simp [lexLtB] at hbc
      | cons ch ct =>
        simp only [lexLtB] at hab hbc ⊢
        by_cases h1 : ah < bh
        · by_cases h2 : bh < ch
          · rw [if_pos (lt_trans h1 h2)]
          · rw [if_neg h2] at hbc
            by_cases h3 : bh = ch
            · subst h3; rw [if_pos h1]
            · rw [if_neg h3] at hbc; exact absurd hbc (by simp)
        · rw [if_neg h1] at hab
          by_cases h4 : ah = bh
          · subst h4
            rw [if_pos rfl] at hab
            by_cases h2 : ah < ch
            · rw [if_pos h2]
            · rw [if_neg h2] at hbc ⊢
              by_cases h3 : ah = ch
              · subst h3
                rw [if_pos rfl] at hbc ⊢
                exact ih hab hbc
              · rw [if_neg h3] at hbc; exact absurd hbc (by simp)
          · rw [if_neg h4] at hab; exact absurd hab (by simp)

theorem lexLtB_total {a : List Char} : ∀ {b : List Char},
    lexLtB a b = false → lexLtB b a = true ∨ b = a := by
  induction a with
  | nil =>
    intro b h
    cases b with
    | nil => right; rfl
    | cons bh bt => simp [lexLtB] at h
  | cons ah at2 ih =>
    intro b h
    cases b with
    | nil => left; rfl
    | cons bh bt =>
      simp only [lexLtB] at h ⊢
      by_cases h1 : ah < bh
      · rw [if_pos h1] at h; exact absurd h (by simp)
      · rw [if_neg h1] at h
        by_cases h2 : ah = bh
        · rw [if_pos h2] at h
          subst h2
          rcases ih h with h3 | h3
          · left
            rw [if_neg (lt_irrefl ah), if_pos rfl]
            exact h3
          · right; rw [h3]
        · have h3 : bh < ah := by
            rcases lt_trichotomy ah bh with h4 | h4 | h4
            · exact absurd h4 h1
            · exact absurd h4 h2
            · exact h4
          left; rw [if_pos h3]

/-- A word never precedes its own initial segment. -/
theorem isPfx_not_lt {p : List Char} : ∀ {x : List Char},
    isPfx p x = true → lexLtB x p = false := by
  induction p with
  | nil =>
    intro x _
    cases x with
    | nil => rfl
    | cons xh xt => rfl
  | cons ph pt ih =>
    intro x h
    cases x with
    | nil => simp [isPfx] at h
    | cons xh xt =>
      simp only [isPfx, Bool.and_eq_true, beq_iff_eq] at h
      obtain ⟨h1, h2⟩ := h
      subst h1
      simp only [lexLtB]
      rw [if_neg (lt_irrefl ph)]
      simpa using ih h2

/-- Words with the initial segment `p` form an interval of the code-point
order: anything between `p` and a word starting with `p` also starts with
`p`. -/
theorem isPfx_of_between {p : List Char} : ∀ {x y : List Char},
    isPfx p y = true → lexLeP p x → lexLeP x y → isPfx p x = true := by
  induction p with
  | nil => intro x y _ _ _; rfl
  | cons ph pt ih =>
    intro x y hy hpx hxy
    rcases hpx with hpx | rfl
    · rcases hxy with hxy | rfl
      · cases y with
        | nil => simp [isPfx] at hy
        | cons yh yt =>
          simp only [isPfx, Bool.and_eq_true, beq_iff_eq] at hy
          obtain ⟨hy1, hy2⟩ := hy
          subst hy1
          cases x with
          | nil => simp [lexLtB] at hpx
          | cons xh xt =>
            simp only [lexLtB] at hpx hxy
            by_cases h1 : ph < xh
            · rw [if_neg (asymm h1), if_neg (ne_of_gt h1)] at hxy
              exact absurd hxy (by simp)
            · rw [if_neg h1] at hpx
              by_cases h2 : ph = xh
              · subst h2
                rw [if_pos rfl] at hpx
                rw [if_neg (lt_irrefl ph), if_pos rfl] at hxy
                simp only [isPfx, Bool.and_eq_true, beq_iff_eq]
                exact ⟨by trivial, ih hy2 (Or.inl hpx) (Or.inl hxy)⟩
              · rw [if_neg h2] at hpx; exact absurd hpx (by simp)
      · exact hy
    · exact isPfx_refl _

/-- Every element the `dropWhile` of the bisection leaves is at or above the
searched value. -/
theorem dropWhile_all_not_lt {lst : List (List Char)} {pfx : List Char}
    (hs : List.Pairwise lexLeP lst) :
    ∀ b ∈ lst.dropWhile (fun s => lexLtB s pfx), lexLtB b pfx = false := by
  induction lst with
  | nil => simp
  | cons a rest ih =>
    cases hp : lexLtB a pfx with
    | true =>
      rw [List.dropWhile_cons_of_pos (by simp [hp])]
      exact ih (List.pairwise_cons.1 hs).2
    | false =>
      rw [List.dropWhile_cons_of_neg (by simp [hp])]
      intro b hb
      rcases List.mem_cons.1 hb with rfl | hb2
      · exact hp
      · have hab : lexLeP a b := (List.pairwise_cons.1 hs).1 b hb2
        cases hbp : lexLtB b pfx with
        | false => rfl
        | true =>
          exfalso
          rcases hab with hab | rfl
          · exact absurd (lexLtB_trans hab hbp) (by simp [hp])
          · exact absurd hbp (by simp [hp])

/-- In a sorted run of words at or above `pfx`, the words starting with
`pfx` are an initial run: filtering equals taking-while. -/
theorem filter_eq_takeWhile_of_sorted {pfx : List Char} : ∀ {B : List (List Char)},
    List.Pairwise lexLeP B → (∀ b ∈ B, lexLtB b pfx = false) →
    B.filter (fun s => isPfx pfx s) = B.takeWhile (fun s => isPfx pfx s) := by
  intro B
  induction B with
  | nil => intro _ _; rfl
  | cons b rest ih =>
    intro hs hge
    cases hp : isPfx pfx b with
    | true =>
      rw [List.filter_cons_of_pos (by simp [hp]), List.takeWhile_cons_of_pos (by simp [hp])]
      rw [ih (List.pairwise_cons.1 hs).2 (fun x hx => hge x (List.mem_cons_of_mem b hx))]
    | false =>
      rw [List.filter_cons_of_neg (by simp [hp]), List.takeWhile_cons_of_neg (by simp [hp])]
      apply List.filter_eq_nil_iff.2
      intro x hx
      cases hq : isPfx pfx x with
      | false => simp [hq]
      | true =>
        exfalso
        have hbx : lexLeP b x := (List.pairwise_cons.1 hs).1 x hx
        have hpb : lexLeP pfx b := by
          rcases lexLtB_total (hge b (List.mem_cons_self b rest)) with h | h
          · exact Or.inl h
          · exact Or.inr h
        exact absurd (isPfx_of_between hq hpb hbx) (by simp [hp])

/-- The narrowing loop advances to the end of the prefix run or until the
amount is spent, and never reads out of range. -/
theorem abpLoop_char (lst : List (List Char)) (pfx : List Char) :
    ∀ (amt j : Nat), 1 ≤ amt → j + amt ≤ lst.length + 1 →
    abpLoop lst pfx j amt =
      some (j + min (amt - 1) (((lst.drop j).takeWhile (fun s => isPfx pfx s)).length)) := by
  intro amt
  induction amt with
  | zero => intro j h1 _; omega
  | succ k ih =>
    intro j h1 h2
    simp only [abpLoop]
    by_cases hk : k = 0
    · rw [if_pos hk]
      subst hk
      simp
    · rw [if_neg hk]
      have hj : j < lst.length := by omega
      have hget : lst[j]? = some lst[j] := List.getElem?_eq_getElem hj
      have hdropj : lst.drop j = lst[j] :: lst.drop (j + 1) := List.drop_eq_getElem_cons hj
      rw [hget, Option.some_bind]
      cases hp : isPfx pfx lst[j] with
      | false =>
        rw [if_neg (by simp [hp])]
        rw [hdropj, List.takeWhile_cons_of_neg (by simp [hp])]
        simp
      | true =>
        rw [if_pos (by simp [hp])]
        rw [ih (j + 1) (by omega) (by omega)]
        rw [hdropj, List.takeWhile_cons_of_pos (by simp [hp])]
        simp only [List.length_cons]
        congr 1
        omega

/-- Taking up to the length of the initial run is taking from the run. -/
theorem take_min_takeWhile (p : List Char → Bool) : ∀ (l : List (List Char)) (m : Nat),
    l.take (min m (l.takeWhile p).length) = (l.takeWhile p).take m := by
  intro l
  induction l with
  | nil => intro m; simp
  | cons x xs ih =>
    intro m
    cases hp : p x with
    | false =>
      rw [List.takeWhile_cons_of_neg (by simp [hp])]
      simp
    | true =>
      rw [List.takeWhile_cons_of_pos (by simp [hp])]
      cases m with
      | zero => simp
      | succ m2 =>
        simp only [List.length_cons, Nat.succ_min_succ, List.take_succ_cons]
        rw [ih]

/-- Taking exactly the length of the initial run recovers it. -/
theorem take_length_takeWhile (p : List Char → Bool) (l : List (List Char)) :
    l.take (l.takeWhile p).length = l.takeWhile p := by
  have h := take_min_takeWhile p l (l.takeWhile p).length
  rwa [min_self, List.take_of_length_le (le_refl _)] at h

/-- C10: on a sorted adverb list, `adverb_by_prefix(prefix, amount)` with
`amount ≥ 1` terminates without raising (`some`), and returns exactly the
first `min(amount, m)` elements of the list that start with the prefix,
where `m` counts all such elements — that is, the take of `amount` from the
filtered list. -/
theorem c10_adverb_search (lst : List (List Char)) (pfx : List Char) (amount : Nat)
    (hs : List.Pairwise lexLeP lst) (ha : 1 ≤ amount) :
    adverbByPrefix lst pfx amount =
      some ((lst.filter (fun s => isPfx pfx s)).take amount) := by
  have hAB : lst.takeWhile (fun s => lexLtB s pfx) ++ lst.dropWhile (fun s => lexLtB s pfx) =
      lst := List.takeWhile_append_dropWhile _ _
  have hAfilter : ∀ a ∈ lst.takeWhile (fun s => lexLtB s pfx), isPfx pfx a = false := by
    intro a haA
    have hlt : lexLtB a pfx = true := by simpa using List.mem_takeWhile_imp haA
    cases hq : isPfx pfx a with
    | false => rfl
    | true => exact absurd (isPfx_not_lt hq) (by simp [hlt])
  have hfilter : lst.filter (fun s => isPfx pfx s) =
      (lst.dropWhile (fun s => lexLtB s pfx)).filter (fun s => isPfx pfx s) := by
    conv_lhs => rw [← hAB]
    rw [List.filter_append, List.filter_eq_nil_iff.2 (fun a hx => by simp [hAfilter a hx])]
    rfl
  have hBsorted : List.Pairwise lexLeP (lst.dropWhile (fun s => lexLtB s pfx)) :=
    hs.sublist (List.dropWhile_sublist _)
  have hblock := filter_eq_takeWhile_of_sorted hBsorted (dropWhile_all_not_lt hs)
  have hlenAB : (lst.takeWhile (fun s => lexLtB s pfx)).length +
      (lst.dropWhile (fun s => lexLtB s pfx)).length = lst.length := by
    conv_rhs => rw [← hAB]
    rw [List.length_append]
  unfold adverbByPrefix bisectLeft
  by_cases hlen : (lst.takeWhile (fun s => lexLtB s pfx)).length ≥ lst.length
  · rw [if_pos hlen]
    have hBnil : lst.dropWhile (fun s => lexLtB s pfx) = [] :=
      List.eq_nil_of_length_eq_zero (by omega)
    rw [hfilter, hBnil]
    simp
  · rw [if_neg hlen]
    have hBlen : 0 < (lst.dropWhile (fun s => lexLtB s pfx)).length := by omega
    obtain ⟨b0, B', hB⟩ : ∃ b0 B', lst.dropWhile (fun s => lexLtB s pfx) = b0 :: B' := by
      cases hBc : lst.dropWhile (fun s => lexLtB s pfx) with
      | nil => rw [hBc] at hBlen; simp at hBlen
      | cons x xs => exact ⟨x, xs, rfl⟩
    have hget : lst[(lst.takeWhile (fun s => lexLtB s pfx)).length]? = some b0 := by
      have h1 : (lst.takeWhile (fun s => lexLtB s pfx) ++
          lst.dropWhile (fun s => lexLtB s pfx))[(lst.takeWhile
            (fun s => lexLtB s pfx)).length]? = some b0 := by
        rw [List.getElem?_append_right (le_refl _)]
        simp [hB]
      rwa [hAB] at h1
    rw [hget, Option.some_bind]
    have hdrop : lst.drop (lst.takeWhile (fun s => lexLtB s pfx)).length = b0 :: B' := by
      have h1 : (lst.takeWhile (fun s => lexLtB s pfx) ++
          lst.dropWhile (fun s => lexLtB s pfx)).drop
            (lst.takeWhile (fun s => lexLtB s pfx)).length =
          lst.dropWhile (fun s => lexLtB s pfx) := List.drop_left _ _
      rw [hAB, hB] at h1
      exact h1
    cases hp : isPfx pfx b0 with
    | false =>
      rw [if_neg (by simp [hp])]
      rw [hfilter, hblock, hB, List.takeWhile_cons_of_neg (by simp [hp])]
      simp
    | true =>
      rw [if_pos (by simp [hp])]
      have hloop := abpLoop_char lst pfx
        (min amount (lst.length - (lst.takeWhile (fun s => lexLtB s pfx)).length))
        ((lst.takeWhile (fun s => lexLtB s pfx)).length + 1) (by omega) (by omega)
      have hdrop1 : lst.drop ((lst.takeWhile (fun s => lexLtB s pfx)).length + 1) = B' := by
        rw [← List.drop_drop, hdrop]
        rfl
      rw [hdrop1] at hloop
      rw [hloop, Option.map_some']
      rw [hdrop]
      rw [hfilter, hblock, hB, List.takeWhile_cons_of_pos (by simp [hp])]
      have hBplen : B'.length =
          lst.length - (lst.takeWhile (fun s => lexLtB s pfx)).length - 1 := by
        have := hlenAB
        rw [hB] at this
        simp only [List.length_cons] at this
        omega
      have hL : (B'.takeWhile (fun s => isPfx pfx s)).length ≤ B'.length :=
        List.Sublist.length_le (List.takeWhile_sublist _)
      congr 1
      rw [show (lst.takeWhile (fun s => lexLtB s pfx)).length + 1 +
          min (min amount (lst.length - (lst.takeWhile (fun s => lexLtB s pfx)).length) - 1)
            (B'.takeWhile (fun s => isPfx pfx s)).length -
          (lst.takeWhile (fun s => lexLtB s pfx)).length =
          (min (min amount (lst.length - (lst.takeWhile (fun s => lexLtB s pfx)).length) - 1)
            (B'.takeWhile (fun s => isPfx pfx s)).length) + 1 by omega]
      rw [List.take_succ_cons]
      obtain ⟨am, rfl⟩ : ∃ am, amount = am + 1 := ⟨amount - 1, by omega⟩
      rw [List.take_succ_cons]
      congr 1
      by_cases hcase : am + 1 ≤ lst.length - (lst.takeWhile (fun s => lexLtB s pfx)).length
      · rw [show min (am + 1) (lst.length -
            (lst.takeWhile (fun s => lexLtB s pfx)).length) - 1 = am by omega]
        rw [take_min_takeWhile]
      · rw [show min (am + 1) (lst.length -
            (lst.takeWhile (fun s => lexLtB s pfx)).length) - 1 =
            lst.length - (lst.takeWhile (fun s => lexLtB s pfx)).length - 1 by omega]
        rw [show min (lst.length - (lst.takeWhile (fun s => lexLtB s pfx)).length - 1)
            (B'.takeWhile (fun s => isPfx pfx s)).length =
            (B'.takeWhile (fun s => isPfx pfx s)).length by omega]
        rw [take_length_takeWhile]
        rw [List.take_of_length_le (by omega)]

/-- C10 witness: on the sorted list ["ab", "ac", "ba"] the first adverb with
the one-character prefix "a" is returned. -/
theorem c10_adverb_search_witness :
    adverbByPrefix [['a', 'b'], ['a', 'c'], ['b', 'a']] ['a'] 1 = some [['a', 'b']] := by
  rw [c10_adverb_search [['a', 'b'], ['a', 'c'], ['b', 'a']] ['a'] 1 (by decide) (by decide)]
  rfl

end Tale
